import Mathlib

/-!
Verification of `src/csv_to_json.py` (repository greenhck/Voicetest).

The program reads a CSV file with `csv.DictReader`, collects the rows into a
list of Python dicts, and writes them with
`json.dump(data, f, ensure_ascii=False, indent=2)`.

Embedding choices:
* The input file is represented by the row stream produced by the standard
  CSV reader (`List (List String)`), the granularity at which `DictReader`
  and all claims operate; CSV quoting is below this granularity.
* A Python dict is an association list in insertion order; `dictInsert`
  models assignment `d[k] = v` (update in place if the key is present,
  append otherwise).
* `DictReader` uses its defaults `restkey=None` and `restval=None`: a row
  longer than the header stores the surplus cells as a list under the key
  `None`; a shorter row fills the missing fields with `None`. Empty rows
  (`[]`) are skipped. This follows CPython `csv.DictReader.__next__`.
* `json.dump` with `ensure_ascii=False, indent=2` is embedded by `serData`;
  the dict key `None` is serialized as the JSON key "null".
-/

/-- A Python value that can occur in a record produced by `DictReader`:
a cell string, `None` (the default `restval`), or the list of surplus
cells stored under the default `restkey`. -/
inductive PyVal where
  | str : String → PyVal
  | none : PyVal
  | strList : List String → PyVal
deriving DecidableEq, Repr

/-- A Python dict key of a `DictReader` record: a header field name, or
`Option.none` for the `restkey` `None`. -/
abbrev PyKey := Option String

/-- A `DictReader` record: a Python dict in insertion order. -/
abbrev Record := List (PyKey × PyVal)

/-- Python dict assignment `d[k] = v`: overwrite in place if `k` is
already a key, otherwise append the pair at the end. -/
def dictInsert (k : PyKey) (v : PyVal) : Record → Record
  | [] => [(k, v)]
  | (k1, v1) :: rest =>
      if k1 = k then (k, v) :: rest else (k1, v1) :: dictInsert k v rest

/-- First-match lookup `d[k]` in a Python dict. -/
def dictLookup (k : PyKey) : Record → Option PyVal
  | [] => Option.none
  | (k1, v1) :: rest => if k1 = k then Option.some v1 else dictLookup k rest

/-- CPython `csv.DictReader.__next__` on one non-empty raw row, given the
field names: `d = dict(zip(fieldnames, row))`; if the row is longer, the
surplus cells go under `restkey = None`; if shorter, the remaining field
names get `restval = None`. -/
def dictReaderRow (fieldnames row : List String) : Record :=
  let d := (fieldnames.zip row).foldl
    (fun d p => dictInsert (Option.some p.1) (PyVal.str p.2) d) []
  if fieldnames.length < row.length then
    dictInsert Option.none (PyVal.strList (row.drop fieldnames.length)) d
  else if row.length < fieldnames.length then
    (fieldnames.drop row.length).foldl
      (fun d k => dictInsert (Option.some k) PyVal.none d) d
  else d

/-- `data = [row for row in reader]` for `reader = csv.DictReader(f)`:
the first raw row is the header (field names); each later non-empty raw
row becomes a record; empty raw rows are skipped by `DictReader`. -/
def dictReaderRows (rows : List (List String)) : List Record :=
  match rows with
  | [] => []
  | header :: rest => (rest.filter (fun r => !r.isEmpty)).map (dictReaderRow header)

/-- Lowercase hexadecimal digit, as used by the `json` encoder. -/
def hexDigit (n : Nat) : Char :=
  if n < 10 then Char.ofNat (48 + n) else Char.ofNat (87 + n)

/-- Four lowercase hexadecimal digits, as in the `\uXXXX` escapes of the
`json` encoder. -/
def hex4 (n : Nat) : String :=
  String.mk [hexDigit (n / 4096 % 16), hexDigit (n / 256 % 16),
             hexDigit (n / 16 % 16), hexDigit (n % 16)]

/-- One character of a JSON string as emitted by `json.dump` with
`ensure_ascii=False`: escape the quote, the backslash and the control
characters; every other character is written verbatim. -/
def jsonEscapeChar (c : Char) : String :=
  if c = Char.ofNat 34 then String.mk [Char.ofNat 92, Char.ofNat 34]
  else if c = Char.ofNat 92 then String.mk [Char.ofNat 92, Char.ofNat 92]
  else if c = Char.ofNat 10 then String.mk [Char.ofNat 92, Char.ofNat 110]
  else if c = Char.ofNat 13 then String.mk [Char.ofNat 92, Char.ofNat 114]
  else if c = Char.ofNat 9 then String.mk [Char.ofNat 92, Char.ofNat 116]
  else if c = Char.ofNat 8 then String.mk [Char.ofNat 92, Char.ofNat 98]
  else if c = Char.ofNat 12 then String.mk [Char.ofNat 92, Char.ofNat 102]
  else if c.toNat < 32 then String.mk [Char.ofNat 92, Char.ofNat 117] ++ hex4 c.toNat
  else String.singleton c

/-- The double-quote character. -/
def dq : String := String.singleton (Char.ofNat 34)

/-- The single-quote character, used in the success message of the script. -/
def sglq : String := String.singleton (Char.ofNat 39)

/-- Concatenation of the escaped characters of a JSON string body. -/
def escapeChars : List Char → String
  | [] => ""
  | c :: cs => jsonEscapeChar c ++ escapeChars cs

/-- JSON serialization of a string by `json.dump` with
`ensure_ascii=False`: the escaped characters between double quotes. -/
def jsonString (s : String) : String :=
  dq ++ escapeChars s.toList ++ dq

/-- Serialization of a Python dict key by `json.dump`: the key `None`
becomes the JSON key "null". -/
def pyKeySer : PyKey → String
  | Option.none => jsonString "null"
  | Option.some s => jsonString s

/-- `n` spaces. -/
def indentStr (n : Nat) : String := String.mk (List.replicate n (Char.ofNat 32))

/-- Serialization of a record value by `json.dump(..., indent=2)` at the
given indentation depth. -/
def serPyVal (ind : Nat) : PyVal → String
  | PyVal.str s => jsonString s
  | PyVal.none => "null"
  | PyVal.strList [] => "[]"
  | PyVal.strList (x :: xs) =>
      "[\n"
      ++ String.intercalate ",\n"
           ((x :: xs).map (fun s => indentStr (ind + 2) ++ jsonString s))
      ++ "\n" ++ indentStr ind ++ "]"

/-- Serialization of one record by `json.dump(..., indent=2)` at the given
indentation depth. -/
def serRecord (ind : Nat) (r : Record) : String :=
  match r with
  | [] => "\x7b\x7d"
  | _ =>
      "\x7b\n"
      ++ String.intercalate ",\n"
           (r.map (fun p =>
              indentStr (ind + 2) ++ pyKeySer p.1 ++ ": " ++ serPyVal (ind + 2) p.2))
      ++ "\n" ++ indentStr ind ++ "\x7d"

/-- `json.dump(data, f, ensure_ascii=False, indent=2)` for the list of
records: the full text written to the output file. -/
def serData (data : List Record) : String :=
  match data with
  | [] => "[]"
  | _ =>
      "[\n"
      ++ String.intercalate ",\n" (data.map (fun r => indentStr 2 ++ serRecord 2 r))
      ++ "\n]"

/-- The two files the script touches: the content of the file at
`csv_file` (`Option.none` when the file does not exist, otherwise its
parsed row stream) and the content of the file at `json_file`. -/
structure FS where
  input : Option (List (List String))
  output : Option String
deriving DecidableEq, Repr

/-- Result of one invocation: the returned exit code, the lines printed
to the console, and the resulting file contents. -/
structure ConvResult where
  exitCode : Nat
  stdout : List String
  fs : FS
deriving DecidableEq, Repr

/-- `CSV_FILE = "marketdata.csv"`. -/
def CSV_FILE : String := "marketdata.csv"

/-- `JSON_FILE = "marketdata.json"`. -/
def JSON_FILE : String := "marketdata.json"

/-- The whole routine `csv_to_json(csv_file, json_file)`:
if the input file does not exist, print the error line and return 1;
otherwise read the rows with `DictReader`, write the JSON text to the
output file, print the success line and return 0. -/
def csv_to_json (csv_file json_file : String) (fs : FS) : ConvResult :=
  match fs.input with
  | Option.none =>
      { exitCode := 1
        stdout := ["ERROR: CSV file not found: " ++ csv_file]
        fs := fs }
  | Option.some rows =>
      let data := dictReaderRows rows
      { exitCode := 0
        stdout := ["✅ Converted " ++ toString data.length ++ " rows from "
                    ++ sglq ++ csv_file ++ sglq ++ " → " ++ sglq ++ json_file ++ sglq]
        fs := { fs with output := Option.some (serData data) } }

/-! ### Helper lemmas about Python dicts -/

/-- Assigning a fresh key appends the pair at the end of the dict. -/
theorem dictInsert_of_not_mem (k : PyKey) (v : PyVal) (l : Record)
    (h : k ∉ l.map Prod.fst) : dictInsert k v l = l ++ [(k, v)] := by
  induction l with
  | nil => rfl
  | cons p rest ih =>
      obtain ⟨k1, v1⟩ := p
      simp only [List.map_cons, List.mem_cons] at h
      push_neg at h
      simp [dictInsert, Ne.symm h.1, ih h.2]

/-- Folding fresh assignments over a dict appends all the pairs in order. -/
theorem foldl_dictInsert_fresh (ps : List (PyKey × PyVal)) (acc : Record)
    (h : ((acc ++ ps).map Prod.fst).Nodup) :
    ps.foldl (fun d p => dictInsert p.1 p.2 d) acc = acc ++ ps := by
  induction ps generalizing acc with
  | nil => simp
  | cons p ps ih =>
      have hk : p.1 ∉ acc.map Prod.fst := by
        intro hmem
        rw [List.map_append, List.nodup_append] at h
        exact h.2.2 hmem (by simp)
      rw [List.foldl_cons, dictInsert_of_not_mem p.1 p.2 acc hk]
      have h2 : (((acc ++ [p]) ++ ps).map Prod.fst).Nodup := by
        rw [List.append_assoc]
        simpa using h
      rw [ih (acc ++ [p]) h2, List.append_assoc]
      simp

/-- The keys of a zip are the first components, truncated to the shorter length. -/
theorem map_fst_zip_take (a : List String) (b : List String) :
    (a.zip b).map Prod.fst = a.take b.length := by
  induction a generalizing b with
  | nil => simp
  | cons x xs ih =>
      cases b with
      | nil => simp
      | cons y ys => simp [ih]

/-- The pairs contributed by `dict(zip(fieldnames, row))`. -/
def rowPairs (fieldnames row : List String) : Record :=
  (fieldnames.zip row).map (fun p => (Option.some p.1, PyVal.str p.2))

/-- The pairs contributed by the `restval = None` fill for a short row. -/
def restvalPairs (fieldnames row : List String) : Record :=
  (fieldnames.drop row.length).map (fun k => (Option.some k, PyVal.none))

/-- The pair contributed by `restkey = None` for a long row. -/
def restPair (fieldnames row : List String) : Record :=
  if fieldnames.length < row.length then
    [(Option.none, PyVal.strList (row.drop fieldnames.length))]
  else []

theorem map_fst_rowPairs (f r : List String) :
    (rowPairs f r).map Prod.fst = (f.take r.length).map Option.some := by
  rw [rowPairs, List.map_map, ← map_fst_zip_take f r, List.map_map]
  rfl

theorem map_fst_restvalPairs (f r : List String) :
    (restvalPairs f r).map Prod.fst = (f.drop r.length).map Option.some := by
  rw [restvalPairs, List.map_map]
  rfl

/-- For a duplicate-free header, the record built by `DictReader` is the
cell pairs, then the `None` fills of a short row, then the surplus list of
a long row. -/
theorem dictReaderRow_char (f r : List String) (hnd : f.Nodup) :
    dictReaderRow f r = rowPairs f r ++ restvalPairs f r ++ restPair f r := by
  have hmapnd : (f.map Option.some).Nodup :=
    hnd.map (Option.some_injective String)
  have hzip : (f.zip r).foldl
      (fun d p => dictInsert (Option.some p.1) (PyVal.str p.2) d) []
      = rowPairs f r := by
    have hnd1 : (([] ++ rowPairs f r).map Prod.fst).Nodup := by
      rw [List.nil_append, map_fst_rowPairs]
      exact hmapnd.sublist ((f.take_sublist r.length).map Option.some)
    have h1 := foldl_dictInsert_fresh (rowPairs f r) [] hnd1
    rw [List.nil_append] at h1
    rw [rowPairs] at h1 ⊢
    exact Eq.trans
      (Eq.symm (List.foldl_map
        (fun p : String × String => (Option.some p.1, PyVal.str p.2))
        (fun d p => dictInsert p.1 p.2 d) (f.zip r) []))
      h1
  rw [dictReaderRow]
  by_cases hlt : f.length < r.length
  · have hdrop : f.drop r.length = [] :=
      List.drop_eq_nil_of_le (Nat.le_of_lt hlt)
    have hnone : Option.none ∉ (rowPairs f r).map Prod.fst := by
      rw [map_fst_rowPairs]
      intro hmem
      rcases List.mem_map.mp hmem with ⟨x, _, hx⟩
      exact Option.noConfusion hx
    simp only [hlt, if_true, hzip]
    rw [dictInsert_of_not_mem _ _ _ hnone]
    simp [restvalPairs, restPair, hdrop, hlt]
  · rw [if_neg hlt]
    by_cases hgt : r.length < f.length
    · rw [if_pos hgt, hzip]
      have hfold : (f.drop r.length).foldl
          (fun d k => dictInsert (Option.some k) PyVal.none d) (rowPairs f r)
          = rowPairs f r ++ restvalPairs f r := by
        have hnd2 : ((rowPairs f r ++ restvalPairs f r).map Prod.fst).Nodup := by
          rw [List.map_append, map_fst_rowPairs, map_fst_restvalPairs,
            ← List.map_append, List.take_append_drop]
          exact hmapnd
        have h1 := foldl_dictInsert_fresh (restvalPairs f r) (rowPairs f r) hnd2
        rw [restvalPairs] at h1 ⊢
        exact Eq.trans
          (Eq.symm (List.foldl_map
            (fun k : String => (Option.some k, PyVal.none))
            (fun d p => dictInsert p.1 p.2 d) (f.drop r.length) (rowPairs f r)))
          h1
      rw [hfold, restPair, if_neg hlt, List.append_nil]
    · rw [if_neg hgt, hzip]
      have heq : r.length = f.length := Nat.le_antisymm
        (Nat.le_of_not_lt hlt) (Nat.le_of_not_lt hgt)
      simp [restvalPairs, restPair, heq, hlt]

/-- Keys of the record of a row that is not longer than the header:
exactly the header fields, in header order. -/
theorem keys_dictReaderRow_of_le (f r : List String) (hnd : f.Nodup)
    (hle : r.length ≤ f.length) :
    (dictReaderRow f r).map Prod.fst = f.map Option.some := by
  rw [dictReaderRow_char f r hnd, restPair, if_neg (Nat.not_lt.mpr hle),
    List.append_nil, List.map_append, map_fst_rowPairs, map_fst_restvalPairs,
    ← List.map_append, List.take_append_drop]

/-- Lookup is unchanged by pairs whose keys all differ from the key sought. -/
theorem dictLookup_append_not_mem (k : PyKey) (l1 l2 : Record)
    (h : k ∉ l1.map Prod.fst) :
    dictLookup k (l1 ++ l2) = dictLookup k l2 := by
  induction l1 with
  | nil => simp
  | cons p rest ih =>
      obtain ⟨k1, v1⟩ := p
      simp only [List.map_cons, List.mem_cons] at h
      push_neg at h
      rw [List.cons_append, dictLookup, if_neg (Ne.symm h.1)]
      exact ih h.2

/-- A successful lookup in the first part of a dict survives appending. -/
theorem dictLookup_append_some (k : PyKey) (v : PyVal) (l1 l2 : Record)
    (h : dictLookup k l1 = Option.some v) :
    dictLookup k (l1 ++ l2) = Option.some v := by
  induction l1 with
  | nil => simp [dictLookup] at h
  | cons p rest ih =>
      obtain ⟨k1, v1⟩ := p
      rw [dictLookup] at h
      rw [List.cons_append, dictLookup]
      by_cases hk : k1 = k
      · rw [if_pos hk] at h ⊢
        exact h
      · rw [if_neg hk] at h ⊢
        exact ih h

/-- Looking up the `j`-th field of a duplicate-free header in the zip
pairs yields the `j`-th cell of the row. -/
theorem dictLookup_rowPairs (f r : List String) (hnd : f.Nodup) (j : Nat)
    (hjf : j < f.length) (hjr : j < r.length) :
    dictLookup (Option.some (f.get ⟨j, hjf⟩)) (rowPairs f r)
      = Option.some (PyVal.str (r.get ⟨j, hjr⟩)) := by
  induction f generalizing r j with
  | nil => simp at hjf
  | cons x xs ih =>
      cases r with
      | nil => simp at hjr
      | cons y ys =>
          cases j with
          | zero => simp [rowPairs, dictLookup]
          | succ j =>
              have hjf2 : j < xs.length := Nat.lt_of_succ_lt_succ hjf
              have hjr2 : j < ys.length := Nat.lt_of_succ_lt_succ hjr
              have hx : Option.some x ≠ Option.some (xs.get ⟨j, hjf2⟩) := by
                intro hcontra
                have hmem : x ∈ xs :=
                  Option.some_injective _ hcontra ▸ xs.get_mem j hjf2
                exact (List.nodup_cons.mp hnd).1 hmem
              rw [rowPairs, List.zip_cons_cons, List.map_cons]
              rw [show ((x :: xs).get ⟨j + 1, hjf⟩) = xs.get ⟨j, hjf2⟩ from rfl]
              rw [show ((y :: ys).get ⟨j + 1, hjr⟩) = ys.get ⟨j, hjr2⟩ from rfl]
              rw [dictLookup, if_neg hx]
              apply ih
              exact (List.nodup_cons.mp hnd).2

/-- Looking up a field name among the `restval = None` fill pairs. -/
theorem dictLookup_restval (ks : List String) (k : String) (hk : k ∈ ks) :
    dictLookup (Option.some k) (ks.map (fun f => (Option.some f, PyVal.none)))
      = Option.some PyVal.none := by
  induction ks with
  | nil => simp at hk
  | cons x xs ih =>
      by_cases hx : x = k
      · simp [dictLookup, hx]
      · have hmem : k ∈ xs := by
          rcases List.mem_cons.mp hk with h | h
          · exact absurd h.symm hx
          · exact h
        rw [List.map_cons, dictLookup,
          if_neg (fun hc => hx (Option.some_injective _ hc)), ih hmem]

/-- A character that is not the quote, not the backslash and not a control
character is emitted verbatim by the encoder. -/
theorem jsonEscapeChar_of_safe (c : Char) (h32 : 32 ≤ c.toNat)
    (hq : c ≠ Char.ofNat 34) (hb : c ≠ Char.ofNat 92) :
    jsonEscapeChar c = String.singleton c := by
  have h10 : c ≠ Char.ofNat 10 := by
    intro h; rw [h] at h32; exact absurd h32 (by decide)
  have h13 : c ≠ Char.ofNat 13 := by
    intro h; rw [h] at h32; exact absurd h32 (by decide)
  have h9 : c ≠ Char.ofNat 9 := by
    intro h; rw [h] at h32; exact absurd h32 (by decide)
  have h8 : c ≠ Char.ofNat 8 := by
    intro h; rw [h] at h32; exact absurd h32 (by decide)
  have h12 : c ≠ Char.ofNat 12 := by
    intro h; rw [h] at h32; exact absurd h32 (by decide)
  rw [jsonEscapeChar, if_neg hq, if_neg hb, if_neg h10, if_neg h13,
    if_neg h9, if_neg h8, if_neg h12, if_neg (Nat.not_lt.mpr h32)]

/-- A list of verbatim characters is emitted unchanged. -/
theorem escapeChars_of_safe (l : List Char)
    (h : ∀ c ∈ l, 32 ≤ c.toNat ∧ c ≠ Char.ofNat 34 ∧ c ≠ Char.ofNat 92) :
    escapeChars l = String.mk l := by
  induction l with
  | nil => rfl
  | cons c cs ih =>
      obtain ⟨h1, h2, h3⟩ := h c (List.mem_cons_self c cs)
      rw [escapeChars, jsonEscapeChar_of_safe c h1 h2 h3,
        ih (fun d hd => h d (List.mem_cons_of_mem c hd))]
      rfl

/-- A string without quotes, backslashes or control characters is encoded
as the verbatim text between two double quotes: in particular non-ASCII
text is not escaped to `\uXXXX` sequences. -/
theorem jsonString_of_safe (s : String)
    (h : ∀ c ∈ s.toList, 32 ≤ c.toNat ∧ c ≠ Char.ofNat 34 ∧ c ≠ Char.ofNat 92) :
    jsonString s = dq ++ s ++ dq := by
  rw [jsonString, escapeChars_of_safe s.toList h]
  rfl

/-! ### The claims -/

/-- C2: when the input file does not exist, `csv_to_json` returns exit
code 1, prints exactly one error line naming the missing input path, and
leaves both files (in particular the output file) untouched. -/
theorem claim2_missing_input (csvf jsonf : String) (fs : FS)
    (hin : fs.input = Option.none) :
    csv_to_json csvf jsonf fs =
      { exitCode := 1
        stdout := ["ERROR: CSV file not found: " ++ csvf]
        fs := fs } := by
  rw [csv_to_json, hin]

/-- C2 witness: the concrete invocation of the script on an absent
`marketdata.csv`. -/
theorem claim2_witness :
    csv_to_json CSV_FILE JSON_FILE ⟨Option.none, Option.none⟩ =
      { exitCode := 1
        stdout := ["ERROR: CSV file not found: " ++ CSV_FILE]
        fs := ⟨Option.none, Option.none⟩ } :=
  claim2_missing_input CSV_FILE JSON_FILE ⟨Option.none, Option.none⟩ rfl

/-- C5: on an input with only a header row and no data rows, the run
succeeds with exit code 0 and the output file holds exactly the text
of an empty JSON array. -/
theorem claim5_empty_dataset (csvf jsonf : String) (fs : FS)
    (header : List String) (hin : fs.input = Option.some [header]) :
    (csv_to_json csvf jsonf fs).exitCode = 0 ∧
    (csv_to_json csvf jsonf fs).fs.output = Option.some "[]" := by
  rw [csv_to_json, hin]
  exact ⟨rfl, rfl⟩

/-- C5 witness: a concrete header-only input. -/
theorem claim5_witness :
    (csv_to_json CSV_FILE JSON_FILE
        ⟨Option.some [["symbol", "price"]], Option.none⟩).exitCode = 0 ∧
    (csv_to_json CSV_FILE JSON_FILE
        ⟨Option.some [["symbol", "price"]], Option.none⟩).fs.output
      = Option.some "[]" :=
  claim5_empty_dataset CSV_FILE JSON_FILE _ ["symbol", "price"] rfl

/-- C6: the conversion is a deterministic function of the input file
content, so a second run on the unchanged input reproduces the first run
byte for byte: same exit code, same console line, and the same (output)
file contents. -/
theorem claim6_deterministic (csvf jsonf : String) (fs : FS) :
    csv_to_json csvf jsonf (csv_to_json csvf jsonf fs).fs
      = csv_to_json csvf jsonf fs := by
  cases h : fs.input <;> simp [csv_to_json, h]

/-- C7: on any existing input, `csv_to_json` returns exit code 0 and
prints exactly one status line carrying the number of records converted
and both file names. -/
theorem claim7_success_report (csvf jsonf : String) (fs : FS)
    (rows : List (List String)) (hin : fs.input = Option.some rows) :
    (csv_to_json csvf jsonf fs).exitCode = 0 ∧
    (csv_to_json csvf jsonf fs).stdout =
      ["✅ Converted " ++ toString (dictReaderRows rows).length ++ " rows from "
        ++ sglq ++ csvf ++ sglq ++ " → " ++ sglq ++ jsonf ++ sglq] := by
  rw [csv_to_json, hin]
  exact ⟨rfl, rfl⟩

/-- C7 witness: the concrete status line of a two-row conversion. -/
theorem claim7_witness :
    (csv_to_json CSV_FILE JSON_FILE
        ⟨Option.some [["a"], ["x"], ["y"]], Option.none⟩).exitCode = 0 ∧
    (csv_to_json CSV_FILE JSON_FILE
        ⟨Option.some [["a"], ["x"], ["y"]], Option.none⟩).stdout =
      ["✅ Converted " ++ toString (dictReaderRows [["a"], ["x"], ["y"]]).length
        ++ " rows from " ++ sglq ++ CSV_FILE ++ sglq ++ " → "
        ++ sglq ++ JSON_FILE ++ sglq] :=
  claim7_success_report CSV_FILE JSON_FILE _ [["a"], ["x"], ["y"]] rfl

/-- C8: no run of `csv_to_json` ever changes the input file, on the error
path or the success path; and whenever the input exists the output file is
overwritten unconditionally with the serialized dataset, whatever it held
before. -/
theorem claim8_frame (csvf jsonf : String) (fs : FS) :
    (csv_to_json csvf jsonf fs).fs.input = fs.input ∧
    (∀ rows, fs.input = Option.some rows →
      (csv_to_json csvf jsonf fs).fs.output
        = Option.some (serData (dictReaderRows rows))) := by
  cases h : fs.input <;> simp [csv_to_json, h]

/-- C8 witness: a run over a pre-existing output file replaces it with the
serialized dataset and keeps the input intact. -/
theorem claim8_witness :
    (csv_to_json CSV_FILE JSON_FILE
        ⟨Option.some [["a"], ["x"]], Option.some "stale"⟩).fs.input
      = Option.some [["a"], ["x"]] ∧
    (csv_to_json CSV_FILE JSON_FILE
        ⟨Option.some [["a"], ["x"]], Option.some "stale"⟩).fs.output
      = Option.some (serData (dictReaderRows [["a"], ["x"]])) := by
  refine ⟨(claim8_frame CSV_FILE JSON_FILE _).1, ?_⟩
  exact (claim8_frame CSV_FILE JSON_FILE
    ⟨Option.some [["a"], ["x"]], Option.some "stale"⟩).2 [["a"], ["x"]] rfl

/-- An element at an index past `n` lies in the drop of the first `n`. -/
theorem get_mem_drop (l : List String) (n j : Nat) (hj : j < l.length)
    (hn : n ≤ j) : l.get ⟨j, hj⟩ ∈ l.drop n := by
  induction l generalizing n j with
  | nil => simp at hj
  | cons x xs ih =>
      cases n with
      | zero => exact (x :: xs).get_mem j hj
      | succ n =>
          cases j with
          | zero => exact absurd hn (by omega)
          | succ j =>
              have hj2 : j < xs.length := Nat.lt_of_succ_lt_succ hj
              rw [show ((x :: xs).get ⟨j + 1, hj⟩) = xs.get ⟨j, hj2⟩ from rfl,
                List.drop_succ_cons]
              apply ih
              exact Nat.le_of_succ_le_succ hn

/-- In a duplicate-free list, an element at an index past `n` does not lie
among the first `n` elements. -/
theorem get_not_mem_take (l : List String) (hnd : l.Nodup) (n j : Nat)
    (hj : j < l.length) (hn : n ≤ j) : l.get ⟨j, hj⟩ ∉ l.take n := by
  induction l generalizing n j with
  | nil => simp at hj
  | cons x xs ih =>
      cases n with
      | zero => simp
      | succ n =>
          cases j with
          | zero => exact absurd hn (by omega)
          | succ j =>
              have hj2 : j < xs.length := Nat.lt_of_succ_lt_succ hj
              rw [show ((x :: xs).get ⟨j + 1, hj⟩) = xs.get ⟨j, hj2⟩ from rfl,
                List.take_succ_cons]
              intro hmem
              rcases List.mem_cons.mp hmem with h | h
              · exact (List.nodup_cons.mp hnd).1 (h ▸ xs.get_mem j hj2)
              · revert h
                apply ih
                · exact (List.nodup_cons.mp hnd).2
                · exact Nat.le_of_succ_le_succ hn

/-- C1: on a valid CSV input (non-empty duplicate-free header `H`, every
data row with exactly as many cells as `H`), the output file receives the
JSON array serialization of the dataset, the dataset has exactly one
object per data row, and every object carries exactly the keys `H`, in
header order. -/
theorem claim1_array_shape (csvf jsonf : String) (fs : FS)
    (header : List String) (rows : List (List String))
    (hin : fs.input = Option.some (header :: rows))
    (hne : header ≠ []) (hnd : header.Nodup)
    (hrect : ∀ r ∈ rows, r.length = header.length) :
    (csv_to_json csvf jsonf fs).fs.output
        = Option.some (serData (dictReaderRows (header :: rows))) ∧
    (dictReaderRows (header :: rows)).length = rows.length ∧
    (∀ rec ∈ dictReaderRows (header :: rows),
      rec.map Prod.fst = header.map Option.some) := by
  have hfilter : rows.filter (fun r => !r.isEmpty) = rows := by
    apply List.filter_eq_self.mpr
    intro r hr
    have hpos : 0 < r.length := by
      rw [hrect r hr]
      exact List.length_pos.mpr hne
    simp [List.isEmpty_iff]
    exact List.length_pos.mp hpos
  have hrows : dictReaderRows (header :: rows)
      = rows.map (dictReaderRow header) := by
    simp [dictReaderRows, hfilter]
  refine ⟨?_, ?_, ?_⟩
  · rw [csv_to_json, hin]
  · rw [hrows, List.length_map]
  · intro rec hrec
    rw [hrows] at hrec
    rcases List.mem_map.mp hrec with ⟨r, hr, rfl⟩
    exact keys_dictReaderRow_of_le header r hnd (Nat.le_of_eq (hrect r hr))

/-- C1 witness: a concrete one-row valid input. -/
theorem claim1_witness :
    (csv_to_json CSV_FILE JSON_FILE
        ⟨Option.some [["a", "b"], ["x", "y"]], Option.none⟩).fs.output
        = Option.some (serData (dictReaderRows [["a", "b"], ["x", "y"]])) ∧
    (dictReaderRows [["a", "b"], ["x", "y"]]).length = [["x", "y"]].length ∧
    (∀ rec ∈ dictReaderRows [["a", "b"], ["x", "y"]],
      rec.map Prod.fst = ["a", "b"].map Option.some) :=
  claim1_array_shape CSV_FILE JSON_FILE _ ["a", "b"] [["x", "y"]] rfl
    (by decide) (by decide) (by decide)

/-- C3 counterexample: on the input with header `a` and the single data
row `x,y` (more cells than header fields), the produced record does not
have the header fields as its key set: it gains the extra `restkey` key
`None`. -/
theorem claim3_counterexample :
    ¬ (∀ rec ∈ dictReaderRows [["a"], ["x", "y"]],
        rec.map Prod.fst = ["a"].map Option.some) := by
  decide

/-- C3 amended: for every input whose data rows have at most as many cells
as the duplicate-free header, every Record in the produced Dataset has
exactly the same key set, equal to the header fields in header order. -/
theorem claim3_amended_invariant (header : List String)
    (rows : List (List String)) (hnd : header.Nodup)
    (hshort : ∀ r ∈ rows, r.length ≤ header.length) :
    ∀ rec ∈ dictReaderRows (header :: rows),
      rec.map Prod.fst = header.map Option.some := by
  intro rec hrec
  simp only [dictReaderRows, List.mem_map, List.mem_filter] at hrec
  obtain ⟨r, ⟨hr, _⟩, rfl⟩ := hrec
  exact keys_dictReaderRow_of_le header r hnd (hshort r hr)

/-- C3 witness: the record of the short data row `x` against the header
`a,b` has exactly the header fields as its keys. -/
theorem claim3_witness :
    (dictReaderRow ["a", "b"] ["x"]).map Prod.fst
      = ["a", "b"].map Option.some :=
  claim3_amended_invariant ["a", "b"] [["x"]] (by decide) (by decide)
    (dictReaderRow ["a", "b"] ["x"]) (by decide)

/-- C4: the value stored for the `j`-th header field of a row with at
least `j+1` cells is exactly the raw cell string; and the JSON encoder
writes any string free of quotes, backslashes and control characters
verbatim between two double quotes, so non-ASCII text is never escaped. -/
theorem claim4_roundtrip (header r : List String) (hnd : header.Nodup)
    (j : Nat) (hjf : j < header.length) (hjr : j < r.length) :
    dictLookup (Option.some (header.get ⟨j, hjf⟩)) (dictReaderRow header r)
        = Option.some (PyVal.str (r.get ⟨j, hjr⟩)) ∧
    (∀ s : String,
      (∀ c ∈ s.toList, 32 ≤ c.toNat ∧ c ≠ Char.ofNat 34 ∧ c ≠ Char.ofNat 92) →
      jsonString s = dq ++ s ++ dq) := by
  constructor
  · rw [dictReaderRow_char header r hnd, List.append_assoc]
    exact dictLookup_append_some _ _ _ _
      (dictLookup_rowPairs header r hnd j hjf hjr)
  · exact fun s hs => jsonString_of_safe s hs

/-- C4 witness: the cell `café` is stored verbatim and serialized without
`\uXXXX` escapes. -/
theorem claim4_witness :
    dictLookup (Option.some "name") (dictReaderRow ["name"] ["café"])
        = Option.some (PyVal.str "café") ∧
    jsonString "café" = dq ++ "café" ++ dq := by
  have h := claim4_roundtrip ["name"] ["café"] (by decide) 0 (by decide) (by decide)
  exact ⟨h.1, h.2 "café" (by decide)⟩

/-- C9: in a row shorter than the duplicate-free header, each missing
field is present in the record with the Python value `None` (serialized
as JSON `null`), which is not the empty string. -/
theorem claim9_short_row_null (header r : List String) (hnd : header.Nodup)
    (j : Nat) (hjf : j < header.length) (hjr : r.length ≤ j) :
    dictLookup (Option.some (header.get ⟨j, hjf⟩)) (dictReaderRow header r)
        = Option.some PyVal.none ∧
    PyVal.none ≠ PyVal.str "" ∧
    serPyVal 4 PyVal.none = "null" := by
  have hlt : r.length < header.length := Nat.lt_of_le_of_lt hjr hjf
  refine ⟨?_, by decide, rfl⟩
  have hnotmem : Option.some (header.get ⟨j, hjf⟩)
      ∉ (rowPairs header r).map Prod.fst := by
    rw [map_fst_rowPairs]
    intro hmem
    rcases List.mem_map.mp hmem with ⟨x, hx, hxeq⟩
    have hxe : x = header.get ⟨j, hjf⟩ := Option.some_injective _ hxeq
    exact get_not_mem_take header hnd r.length j hjf hjr (hxe ▸ hx)
  rw [dictReaderRow_char header r hnd, restPair,
    if_neg (Nat.not_lt.mpr (Nat.le_of_lt hlt)), List.append_nil,
    dictLookup_append_not_mem _ _ _ hnotmem, restvalPairs]
  exact dictLookup_restval _ _ (get_mem_drop header r.length j hjf hjr)

/-- C9 witness: the short row `x` against the header `a,b`. -/
theorem claim9_witness :
    dictLookup (Option.some "b") (dictReaderRow ["a", "b"] ["x"])
        = Option.some PyVal.none ∧
    PyVal.none ≠ PyVal.str "" ∧
    serPyVal 4 PyVal.none = "null" :=
  claim9_short_row_null ["a", "b"] ["x"] (by decide) 1 (by decide) (by decide)

/-- C10: a row longer than the duplicate-free header produces a record
whose keys are the header fields plus the one extra key `None`
(serialized as the JSON key "null"), holding the list of surplus cells,
so not every value of such a record is a string. -/
theorem claim10_long_row_restkey (header r : List String)
    (hnd : header.Nodup) (hlen : header.length < r.length) :
    (dictReaderRow header r).map Prod.fst
        = header.map Option.some ++ [Option.none] ∧
    dictLookup Option.none (dictReaderRow header r)
        = Option.some (PyVal.strList (r.drop header.length)) ∧
    pyKeySer Option.none = jsonString "null" ∧
    ¬ (∀ p ∈ dictReaderRow header r, ∃ s, p.2 = PyVal.str s) := by
  have hchar := dictReaderRow_char header r hnd
  have hdrop : header.drop r.length = [] :=
    List.drop_eq_nil_of_le (Nat.le_of_lt hlen)
  have htake : header.take r.length = header :=
    List.take_of_length_le (Nat.le_of_lt hlen)
  have hrp : restPair header r
      = [(Option.none, PyVal.strList (r.drop header.length))] := by
    rw [restPair, if_pos hlen]
  have hrv : restvalPairs header r = [] := by
    rw [restvalPairs, hdrop]
    rfl
  have hnm : Option.none ∉ (rowPairs header r).map Prod.fst := by
    rw [map_fst_rowPairs]
    intro hmem
    rcases List.mem_map.mp hmem with ⟨x, _, hx⟩
    exact Option.noConfusion hx
  refine ⟨?_, ?_, rfl, ?_⟩
  · rw [hchar, hrv, List.append_nil, hrp, List.map_append, map_fst_rowPairs,
      htake]
    rfl
  · rw [hchar, hrv, List.append_nil, hrp,
      dictLookup_append_not_mem _ _ _ hnm]
    simp [dictLookup]
  · intro hall
    have hmem : (Option.none, PyVal.strList (r.drop header.length))
        ∈ dictReaderRow header r := by
      rw [hchar, hrv, List.append_nil, hrp]
      exact List.mem_append_right _ (by simp)
    rcases hall _ hmem with ⟨s, hs⟩
    exact PyVal.noConfusion hs

/-- C10 witness: the long row `x,y` against the one-field header `a`. -/
theorem claim10_witness :
    (dictReaderRow ["a"] ["x", "y"]).map Prod.fst
        = ["a"].map Option.some ++ [Option.none] ∧
    dictLookup Option.none (dictReaderRow ["a"] ["x", "y"])
        = Option.some (PyVal.strList (["x", "y"].drop 1)) ∧
    pyKeySer Option.none = jsonString "null" ∧
    ¬ (∀ p ∈ dictReaderRow ["a"] ["x", "y"], ∃ s, p.2 = PyVal.str s) :=
  claim10_long_row_restkey ["a"] ["x", "y"] (by decide) (by decide)
